import Mathlib

/-!
Verification of the structured patch-application engine of
`gradle-build-gui` (`src/app.py`): schema validation of model-proposed
change-sets, path sandboxing, patch application (write / create / delete /
move), and the post-apply command phase of the `/api/run` route.

The embedding models POSIX paths as lists of components, the filesystem as
an association list from absolute paths to nodes, and Python exceptions as
`Except` errors that carry the on-disk state at raise time.
-/

namespace GradleGui

/-! ## Path model

`pathlib.Path` arithmetic as used by `apply_patch_spec`:
`(root / path).resolve()` joined lexically, with `..`/`.` normalization and
absolute-path override, and `str(p).startswith(str(root))` on the rendered
strings. -/

/-- Components of an absolute POSIX path: `["a","proj"]` renders as `/a/proj`. -/
abbrev AbsPath := List String

/-- Boolean component-prefix test on lists of strings. -/
def pfx : List String → List String → Bool
  | [], _ => true
  | _ :: _, [] => false
  | a :: as, b :: bs => a == b && pfx as bs

/-- Boolean character-prefix test on lists of characters. -/
def cpfx : List Char → List Char → Bool
  | [], _ => true
  | _ :: _, [] => false
  | a :: as, b :: bs => a == b && cpfx as bs

/-- Python `str.startswith`: `s.startswith(pre)`. -/
def pyStartswith (s pre : String) : Bool := cpfx pre.data s.data

/-- True when the Python path string is absolute (begins with `/`). -/
def isAbs (p : String) : Bool := cpfx ['/'] p.data

/-- Split a list of characters on `/` separators, keeping empty pieces. -/
def splitPathAux : List Char → List Char → List String
  | [], acc => [String.mk acc.reverse]
  | c :: cs, acc =>
    if c = '/' then String.mk acc.reverse :: splitPathAux cs []
    else splitPathAux cs (c :: acc)

/-- Split a path string on `/` separators (Python `Path` parts, raw). -/
def splitPath (p : String) : List String := splitPathAux p.data []

/-- Join strings with a separator, as the Python `join` method does. -/
def joinWith (sep : String) : List String → String
  | [] => ""
  | [x] => x
  | x :: xs => x ++ sep ++ joinWith sep xs

/-- `(root / p).resolve()` of `pathlib`: if `p` is absolute it overrides
`root`; `.` and empty components are dropped, `..` pops one component
(staying at the filesystem root when already there). `root` is assumed
already resolved, as in the source (`root.resolve()`). -/
def resolveUnder (root : AbsPath) (p : String) : AbsPath :=
  let start := if isAbs p then [] else root
  (splitPath p).foldl
    (fun acc c =>
      if c = "" ∨ c = "." then acc
      else if c = ".." then acc.dropLast
      else acc ++ [c])
    start

/-- `str()` of an absolute `pathlib.Path` given by its components. -/
def pathStr (p : AbsPath) : String := "/" ++ joinWith "/" p

/-- Python `str.upper()` on ASCII action names. -/
def pyUpper (s : String) : String := String.mk (s.data.map Char.toUpper)

/-- The semantic containment notion: `p` lies inside the project root when
the components of the root form a component-wise prefix of `p`. (This is what
the path sandbox is supposed to guarantee; the source instead compares
rendered strings with `startswith`.) -/
def underRoot (root p : AbsPath) : Bool := pfx root p

/-! ## Base64

`base64.b64decode(content)` with default `validate=False`, i.e. the
non-strict `binascii.a2b_base64` state machine: characters outside the
alphabet are discarded; an `=` seen with fewer than two data characters
in the current quad is ignored; once padding completes a quad of at least
two data characters, decoding stops and the remaining input is discarded;
if the input ends mid-quad the call raises `binascii.Error`. -/

/-- Value of a standard base64 alphabet character. -/
def b64CharVal (c : Char) : Option Nat :=
  if 'A' ≤ c ∧ c ≤ 'Z' then some (c.toNat - 65)
  else if 'a' ≤ c ∧ c ≤ 'z' then some (c.toNat - 97 + 26)
  else if '0' ≤ c ∧ c ≤ '9' then some (c.toNat - 48 + 52)
  else if c = '+' then some 62
  else if c = '/' then some 63
  else none

/-- The decoder loop of `binascii.a2b_base64` in non-strict mode.
`quadPos` counts data characters in the current group of four,
`leftchar` carries the pending bits, `pads` counts padding characters
seen since the last data character, and `out` accumulates output bytes.
Padding completing a quad (two data characters and two pads, or three
and one) ends decoding with the bytes so far; invalid characters are
skipped; a pad before two data characters is ignored; input ending with
a partial quad is an error (`binascii.Error`). -/
def b64DecodeAux : List Char → Nat → Nat → Nat → List Nat → Option (List Nat)
  | [], quadPos, _, _, out => if quadPos = 0 then some out else none
  | c :: cs, quadPos, leftchar, pads, out =>
    if c = '=' then
      if 2 ≤ quadPos then
        if 4 ≤ quadPos + (pads + 1) then some out
        else b64DecodeAux cs quadPos leftchar (pads + 1) out
      else b64DecodeAux cs quadPos leftchar pads out
    else
      match b64CharVal c with
      | none => b64DecodeAux cs quadPos leftchar pads out
      | some v =>
        match quadPos with
        | 0 => b64DecodeAux cs 1 v 0 out
        | 1 => b64DecodeAux cs 2 (v % 16) 0 (out ++ [leftchar * 4 + v / 16])
        | 2 => b64DecodeAux cs 3 (v % 4) 0 (out ++ [leftchar * 16 + v / 4])
        | _ => b64DecodeAux cs 0 0 0 (out ++ [leftchar * 64 + v])

/-- `base64.b64decode` (non-validating mode). -/
def b64decode (s : String) : Option (List Nat) := b64DecodeAux s.data 0 0 0 []

/-! ## Filesystem model

The disk is an association list from absolute paths to nodes; directory
entries are explicit. Operations mirror the `pathlib`/`shutil` calls in
`write_file` and `apply_patch_spec`, with Python exceptions as `Except`
errors carrying the state already mutated when the exception is raised. -/

/-- Contents of a regular file: text written by `write_text` or bytes
written by `write_bytes`. -/
inductive FileContent
  | text (s : String)
  | bytes (b : List Nat)
deriving DecidableEq, Repr

/-- A filesystem node. -/
inductive Node
  | file (c : FileContent)
  | dir
deriving DecidableEq, Repr

/-- The filesystem: absolute paths mapped to nodes. -/
abbrev FS := List (AbsPath × Node)

/-- Look up the node at a path (the first matching entry). -/
def fsLookup : FS → AbsPath → Option Node
  | [], _ => none
  | e :: es, p => if e.1 == p then some e.2 else fsLookup es p

/-- Replace every entry keyed `t` by a regular file with content `c`. -/
def replaceList : FS → AbsPath → FileContent → FS
  | [], _, _ => []
  | e :: es, t, c =>
    (if e.1 == t then (t, Node.file c) else e) :: replaceList es t c

/-- `write_text` / `write_bytes` at `p`: error (`IsADirectoryError`) if a
directory occupies `p`, otherwise overwrite or create the file. -/
def setFile (fs : FS) (p : AbsPath) (c : FileContent) : Except String FS :=
  match fsLookup fs p with
  | some Node.dir => .error ("IsADirectoryError: " ++ pathStr p)
  | some (Node.file _) => .ok (replaceList fs p c)
  | none => .ok (fs ++ [(p, Node.file c)])

/-- Create each missing directory along `rest` below `pref`, failing
(`FileExistsError`) when a regular file occupies one of the components;
the error carries the directories already created. Models
`Path.mkdir(parents=True, exist_ok=True)`. -/
def insertDirs : FS → AbsPath → List String → Except (String × FS) FS
  | fs, _, [] => .ok fs
  | fs, pref, c :: rs =>
    match fsLookup fs (pref ++ [c]) with
    | some (Node.file _) => .error ("FileExistsError: " ++ pathStr (pref ++ [c]), fs)
    | some Node.dir => insertDirs fs (pref ++ [c]) rs
    | none => insertDirs (fs ++ [(pref ++ [c], Node.dir)]) (pref ++ [c]) rs

/-- `p.mkdir(parents=True, exist_ok=True)` for an absolute path `p`. -/
def mkdirParents (fs : FS) (p : AbsPath) : Except (String × FS) FS :=
  insertDirs fs [] p

/-- The delete branch of `apply_patch_spec`: `shutil.rmtree` for a
directory, `Path.unlink` for a file, and no-op when the target is absent
(the branch is guarded by `target.exists()`). -/
def deleteOp (fs : FS) (target : AbsPath) : FS :=
  match fsLookup fs target with
  | none => fs
  | some Node.dir => fs.filter (fun e => ¬ (pfx target e.1 = true))
  | some (Node.file _) => fs.filter (fun e => e.1 ≠ target)

/-- Relocate the subtree rooted at `src` to `dst`. -/
def renameTree (fs : FS) (src dst : AbsPath) : FS :=
  fs.map (fun e =>
    if pfx src e.1 then (dst ++ e.1.drop src.length, e.2) else e)

/-- `shutil.move(src, dst)`: the function first checks whether the
destination is an existing directory — if so the real destination is
`dst/basename(src)`, and an occupied slot raises `shutil.Error` before
the source is even consulted. Only then does `os.rename(src, real_dst)`
run: a missing source raises `FileNotFoundError`, a file destination is
atomically replaced by a file source, and renaming a directory onto a
file raises `NotADirectoryError`. -/
def moveOp (fs : FS) (src dst : AbsPath) : Except String FS :=
  if fsLookup fs dst = some Node.dir then
    if (fsLookup fs (dst ++ src.drop (src.length - 1))).isSome then
      .error ("shutil.Error: Destination path already exists: " ++
        pathStr (dst ++ src.drop (src.length - 1)))
    else
      match fsLookup fs src with
      | none => .error ("FileNotFoundError: " ++ pathStr src)
      | some _ => .ok (renameTree fs src (dst ++ src.drop (src.length - 1)))
  else
    match fsLookup fs src, fsLookup fs dst with
    | none, _ => .error ("FileNotFoundError: " ++ pathStr src)
    | some (Node.file _), some (Node.file _) =>
      .ok (renameTree (fs.filter (fun e => e.1 ≠ dst)) src dst)
    | some Node.dir, some (Node.file _) =>
      .error ("NotADirectoryError: " ++ pathStr dst)
    | some _, _ => .ok (renameTree fs src dst)

/-- The error message `shutil.move` produces for an absent source:
`shutil.Error` when the destination is an existing directory whose
basename slot is occupied (that check precedes any use of the source),
otherwise `FileNotFoundError` from `os.rename`. -/
def moveAbsentMsg (fs : FS) (src dst : AbsPath) : String :=
  if fsLookup fs dst = some Node.dir ∧
     (fsLookup fs (dst ++ src.drop (src.length - 1))).isSome = true then
    "shutil.Error: Destination path already exists: " ++
      pathStr (dst ++ src.drop (src.length - 1))
  else
    "FileNotFoundError: " ++ pathStr src

/-- `write_file(target, content, encoding)` from `src/app.py`: make the
parent directories, then either base64-decode and `write_bytes`, or
`write_text` (with `newline="\n"`, which leaves the text unchanged). The
error carries the filesystem as already mutated by `mkdir`. -/
def write_file (fs : FS) (target : AbsPath) (content : String)
    (encoding : String) : Except (String × FS) FS :=
  match mkdirParents fs target.dropLast with
  | .error e => .error e
  | .ok fs1 =>
    if encoding == "base64" then
      match b64decode content with
      | none => .error ("binascii.Error: Invalid base64-encoded string", fs1)
      | some data =>
        match setFile fs1 target (FileContent.bytes data) with
        | .error m => .error (m, fs1)
        | .ok fs2 => .ok fs2
    else
      match setFile fs1 target (FileContent.text content) with
      | .error m => .error (m, fs1)
      | .ok fs2 => .ok fs2

/-! ## JSON documents -/

/-- JSON values, the shape of a candidate change-set document. -/
inductive Json
  | str (s : String)
  | num (n : Int)
  | bool (b : Bool)
  | null
  | arr (xs : List Json)
  | obj (fields : List (String × Json))

/-- Dictionary lookup `d.get(k)` on an object's fields. -/
def jLookup (fields : List (String × Json)) (k : String) : Option Json :=
  (fields.find? (fun f => f.1 == k)).map (·.2)

/-! ## Validator

`Draft7Validator(JSON_SCHEMA_V1).iter_errors(spec)`, with errors sorted by
their paths as in `apply_patch_spec`. Error messages follow the shapes the
`jsonschema` library produces; what matters downstream is that each error
carries a path locator and a message naming the offending field. -/

/-- One element of a `jsonschema` error path: a property name or an array
index. -/
inductive PathElem
  | s (x : String)
  | i (n : Nat)
deriving DecidableEq, Repr

/-- A single validation error: path locator plus human-readable message. -/
structure VErr where
  path : List PathElem
  message : String
deriving DecidableEq, Repr

/-- Quote a field name the way `jsonschema` messages do. -/
def quoteKey (k : String) : String := "\x27" ++ k ++ "\x27"

/-- Render the list of unexpected keys for the `additionalProperties`
message. -/
def joinCommaQuoted : List String → String
  | [] => ""
  | [k] => quoteKey k
  | k :: rest => quoteKey k ++ ", " ++ joinCommaQuoted rest

/-- Rough `repr()` of a JSON value for error messages. -/
def jsonRepr : Json → String
  | Json.str s => quoteKey s
  | Json.num n => toString n
  | Json.bool b => if b then "True" else "False"
  | Json.null => "None"
  | Json.arr _ => "[...]"
  | Json.obj _ => "\x7b...\x7d"

/-- Legal top-level keys of `JSON_SCHEMA_V1` (closed by
`additionalProperties: False`). -/
def knownTopKeys : List String := ["version", "intent", "changes", "commands", "notes"]

/-- The `action` enum of the change-item schema. -/
def knownActions : List String := ["write", "create", "delete", "move"]

/-- Check a property expected to be a string drawn from an enumeration;
an empty enumeration means any string is fine. -/
def checkStrEnum (base : List PathElem) (k : String) (enum : List String)
    (v : Json) : List VErr :=
  match v with
  | Json.str s =>
    if enum.isEmpty || enum.contains s then []
    else [⟨base ++ [PathElem.s k],
          jsonRepr (Json.str s) ++ " is not one of " ++ joinCommaQuoted enum⟩]
  | other =>
    [⟨base ++ [PathElem.s k], jsonRepr other ++ " is not of type \x27string\x27"⟩] ++
    (if enum.isEmpty then []
     else [⟨base ++ [PathElem.s k],
           jsonRepr other ++ " is not one of " ++ joinCommaQuoted enum⟩])

/-- The conditional `{"if": {"properties": {"action": {"const": a}}},
"then": {"required": reqs}}` rules of the change-item schema: the `if`
schema matches when `action` is absent or equals the constant. -/
def condRequired (base : List PathElem) (fields : List (String × Json))
    (a : String) (reqs : List String) : List VErr :=
  let ifOk : Bool :=
    match jLookup fields "action" with
    | some (Json.str x) => x == a
    | some _ => false
    | none => true
  if ifOk then
    (reqs.filter (fun k => (jLookup fields k).isNone)).map
      (fun k => ⟨base, quoteKey k ++ " is a required property"⟩)
  else []

/-- Validate one element of `changes` against the item schema. -/
def validateChangeItem (idx : Nat) (j : Json) : List VErr :=
  let base : List PathElem := [PathElem.s "changes", PathElem.i idx]
  match j with
  | Json.obj fields =>
    ((["action", "path"].filter (fun k => (jLookup fields k).isNone)).map
      (fun k => (⟨base, quoteKey k ++ " is a required property"⟩ : VErr))) ++
    (match jLookup fields "action" with
     | some v => checkStrEnum base "action" knownActions v
     | none => []) ++
    (match jLookup fields "path" with
     | some v => checkStrEnum base "path" [] v
     | none => []) ++
    (match jLookup fields "encoding" with
     | some v => checkStrEnum base "encoding" ["utf-8", "base64"] v
     | none => []) ++
    (match jLookup fields "content" with
     | some v => checkStrEnum base "content" [] v
     | none => []) ++
    (match jLookup fields "from" with
     | some v => checkStrEnum base "from" [] v
     | none => []) ++
    (match jLookup fields "to" with
     | some v => checkStrEnum base "to" [] v
     | none => []) ++
    condRequired base fields "write" ["content"] ++
    condRequired base fields "create" ["content"] ++
    condRequired base fields "move" ["from", "to"]
  | other => [⟨base, jsonRepr other ++ " is not of type \x27object\x27"⟩]

/-- Validate the `changes` property (array of change items). -/
def validateChanges (v : Json) : List VErr :=
  match v with
  | Json.arr xs => (xs.enum.map (fun ic => validateChangeItem ic.1 ic.2)).flatten
  | other => [⟨[PathElem.s "changes"], jsonRepr other ++ " is not of type \x27array\x27"⟩]

/-- Validate the `commands` property (array of strings). -/
def validateCommands (v : Json) : List VErr :=
  match v with
  | Json.arr xs =>
    (xs.enum.map (fun ic =>
      match ic.2 with
      | Json.str _ => ([] : List VErr)
      | other => [⟨[PathElem.s "commands", PathElem.i ic.1],
                  jsonRepr other ++ " is not of type \x27string\x27"⟩])).flatten
  | other => [⟨[PathElem.s "commands"], jsonRepr other ++ " is not of type \x27array\x27"⟩]

/-- All errors of `Draft7Validator(JSON_SCHEMA_V1).iter_errors(d)`,
unsorted. -/
def validateTop (d : Json) : List VErr :=
  match d with
  | Json.obj fields =>
    ((["version", "intent", "changes"].filter
        (fun k => (jLookup fields k).isNone)).map
      (fun k => (⟨[], quoteKey k ++ " is a required property"⟩ : VErr))) ++
    (if ((fields.map Prod.fst).filter (fun x => ¬ knownTopKeys.contains x)).isEmpty then []
     else [⟨[], "Additional properties are not allowed (" ++
               joinCommaQuoted
                 ((fields.map Prod.fst).filter (fun x => ¬ knownTopKeys.contains x)) ++
               " were unexpected)"⟩]) ++
    (match jLookup fields "version" with
     | some v => checkStrEnum [] "version" ["1"] v
     | none => []) ++
    (match jLookup fields "intent" with
     | some v => checkStrEnum [] "intent" ["apply_fixes"] v
     | none => []) ++
    (match jLookup fields "changes" with
     | some v => validateChanges v
     | none => []) ++
    (match jLookup fields "commands" with
     | some v => validateCommands v
     | none => []) ++
    (match jLookup fields "notes" with
     | some v => checkStrEnum [] "notes" [] v
     | none => [])
  | other => [⟨[], jsonRepr other ++ " is not of type \x27object\x27"⟩]

/-- Strict lexicographic order on characters by code point. -/
def strLtB : List Char → List Char → Bool
  | [], [] => false
  | [], _ :: _ => true
  | _ :: _, [] => false
  | a :: as, b :: bs =>
    if a.toNat < b.toNat then true
    else if b.toNat < a.toNat then false
    else strLtB as bs

/-- Strict order on path elements (indices sort before names; a mixed
comparison never arises for this schema). -/
def peLtB (a b : PathElem) : Bool :=
  match a, b with
  | PathElem.s x, PathElem.s y => strLtB x.data y.data
  | PathElem.i m, PathElem.i n => m < n
  | PathElem.i _, PathElem.s _ => true
  | PathElem.s _, PathElem.i _ => false

/-- Strict lexicographic order on error paths. -/
def pathLtB : List PathElem → List PathElem → Bool
  | [], [] => false
  | [], _ :: _ => true
  | _ :: _, [] => false
  | a :: as, b :: bs =>
    if peLtB a b then true
    else if peLtB b a then false
    else pathLtB as bs

/-- Stable insertion into a list sorted by error path: `e` precedes
entries it compares equal to, matching a stable sort built by inserting
from the right. -/
def insErr (e : VErr) : List VErr → List VErr
  | [] => [e]
  | x :: xs => if pathLtB x.path e.path then x :: insErr e xs else e :: x :: xs

/-- `sorted(errors, key=lambda e: e.path)`. -/
def sortErrs : List VErr → List VErr
  | [] => []
  | e :: es => insErr e (sortErrs es)

/-- Render a path element with `str()`. -/
def peStr : PathElem → String
  | PathElem.s x => x
  | PathElem.i n => toString n

/-- The `ValidationError` message `apply_patch_spec` raises:
the path elements joined with slashes, a colon, and the message, with one
line per error joined by newlines. -/
def renderErrors (es : List VErr) : String :=
  joinWith "\n"
    (es.map (fun e => joinWith "/" (e.path.map peStr) ++ ": " ++ e.message))

/-! ## Patch application

`apply_patch_spec(root, spec)` from `src/app.py`. The module-level
`APPLY_CHANGES` flag is threaded as an explicit parameter. Python
exceptions raised inside the loop become `ApplyErr.runtime`, carrying the
message and the filesystem state at raise time (no rollback happens on a
real disk); the `ValidationError` raised before the loop touches nothing. -/

/-- Errors escaping `apply_patch_spec`. The local `actions_log` is a
Python local, lost when an exception propagates: neither constructor
carries it. -/
inductive ApplyErr
  | validation (msg : String)
  | runtime (msg : String) (fs : FS)

/-- `APPLY_CHANGES = os.environ.get("APPLY_CHANGES", "1") not in
("0", "false", "False")`. -/
def parseApplyChanges (env : Option String) : Bool :=
  ¬ (["0", "false", "False"].contains (env.getD "1"))

/-- One iteration of the loop in `apply_patch_spec`, acting on the pair
(actions log so far, filesystem). Shapes that validation rules out
(missing keys, non-string values) surface as the runtime errors Python
would raise on them. -/
def applyChange (applyChanges : Bool) (root : AbsPath) (change : Json)
    (st : List String × FS) : Except ApplyErr (List String × FS) :=
  let log := st.1
  let fs := st.2
  match change with
  | Json.obj cf =>
    match jLookup cf "action", jLookup cf "path" with
    | some (Json.str action), some (Json.str path) =>
      let target := resolveUnder root path
      if ¬ (pyStartswith (pathStr target) (pathStr root) = true) then
        .error (ApplyErr.runtime ("Unsafe path outside project: " ++ path) fs)
      else if action == "write" || action == "create" then
        match jLookup cf "content" with
        | some (Json.str content) =>
          let encoding :=
            match jLookup cf "encoding" with
            | some (Json.str e) => e
            | _ => "utf-8"
          if applyChanges then
            match write_file fs target content encoding with
            | .error (m, fs1) => .error (ApplyErr.runtime m fs1)
            | .ok fs1 => .ok (log ++ [pyUpper action ++ " " ++ path], fs1)
          else .ok (log ++ [pyUpper action ++ " " ++ path], fs)
        | _ => .error (ApplyErr.runtime "KeyError: \x27content\x27" fs)
      else if action == "delete" then
        let fs1 := if applyChanges then deleteOp fs target else fs
        .ok (log ++ ["DELETE " ++ path], fs1)
      else if action == "move" then
        match jLookup cf "from", jLookup cf "to" with
        | some (Json.str f), some (Json.str t) =>
          let src := resolveUnder root f
          let dst := resolveUnder root t
          if ¬ (pyStartswith (pathStr src) (pathStr root) = true) ∨
             ¬ (pyStartswith (pathStr dst) (pathStr root) = true) then
            .error (ApplyErr.runtime "Unsafe move path outside project" fs)
          else if applyChanges then
            match mkdirParents fs dst.dropLast with
            | .error (m, fs1) => .error (ApplyErr.runtime m fs1)
            | .ok fs1 =>
              match moveOp fs1 src dst with
              | .error m => .error (ApplyErr.runtime m fs1)
              | .ok fs2 => .ok (log ++ ["MOVE " ++ f ++ " -> " ++ t], fs2)
          else .ok (log ++ ["MOVE " ++ f ++ " -> " ++ t], fs)
        | _, _ => .error (ApplyErr.runtime "KeyError: \x27from\x27/\x27to\x27" fs)
      else
        .error (ApplyErr.runtime ("Unknown action: " ++ action) fs)
    | some _, some _ => .error (ApplyErr.runtime "TypeError: action/path" fs)
    | _, _ => .error (ApplyErr.runtime "KeyError: \x27action\x27/\x27path\x27" fs)
  | _ => .error (ApplyErr.runtime "TypeError: change is not a dict" fs)

/-- `apply_patch_spec(root, spec)`: validate against `JSON_SCHEMA_V1`
(raising `ValidationError` with all errors sorted by path) and then fold
the change loop over the `changes` of the document. On success returns the
`actions_log` and the final filesystem. -/
def apply_patch_spec (applyChanges : Bool) (root : AbsPath) (fs : FS)
    (spec : Json) : Except ApplyErr (List String × FS) :=
  if (sortErrs (validateTop spec)).isEmpty then
    match spec with
    | Json.obj fields =>
      match jLookup fields "changes" with
      | some (Json.arr changes) =>
        changes.foldlM (fun st c => applyChange applyChanges root c st) ([], fs)
      | _ => .error (ApplyErr.runtime "KeyError: \x27changes\x27" fs)
    | _ => .error (ApplyErr.runtime "TypeError: spec is not a dict" fs)
  else
    .error (ApplyErr.validation (renderErrors (sortErrs (validateTop spec))))

/-! ## The `/api/run` patch phase

Lines 226–253 of `src/app.py`: validate/apply according to
`APPLY_CHANGES`, then run every entry of `spec.get("commands", [])` with
`subprocess.run(cmd, cwd=project_root, shell=True, ...)`. The shell is an
oracle mapping a command string to either (returncode, stdout, stderr) or
a spawn failure. -/

/-- One entry of the `commands` result list in the JSON response. -/
structure CmdOut where
  cmd : String
  returncode : Int
  output : String
deriving DecidableEq, Repr

/-- The parts of the `/api/run` JSON response the patch phase determines,
plus the resulting filesystem and the commands actually handed to the
shell (with their working directory). `actions`/`commands`/`error` are
`none` when the corresponding response key is absent. -/
structure RunOutcome where
  ok : Bool
  status : String
  actions : Option (List String)
  cmdResults : Option (List CmdOut)
  error : Option String
  fs : FS
  executed : List (String × AbsPath)

/-- `spec.get("commands", [])`, string entries (all of them,
post-validation). -/
def commandsList (spec : Json) : List String :=
  match spec with
  | Json.obj fields =>
    match jLookup fields "commands" with
    | some (Json.arr xs) =>
      xs.filterMap (fun j => match j with | Json.str s => some s | _ => none)
    | _ => []
  | _ => []

/-- The command loop: every command is run in the project root; a spawn
failure is caught per-command (`returncode` 1, `"Error: ..."`) and the
loop continues; a nonzero exit status is just recorded. Returns the
response entries and the executed (cmd, cwd) pairs. -/
def runCommands (exec : String → Except String (Int × String × String))
    (root : AbsPath) (cmds : List String) : List CmdOut × List (String × AbsPath) :=
  (cmds.map (fun cmd =>
     match exec cmd with
     | .ok (rc, so, se) => ⟨cmd, rc, so ++ "\n" ++ se⟩
     | .error e => ⟨cmd, 1, "Error: " ++ e⟩),
   cmds.map (fun cmd => (cmd, root)))

/-- The validate/apply/commands phase of `api_run`, for a parsed model
response `spec`. With `APPLY_CHANGES` true it calls `apply_patch_spec`;
otherwise it only validates (`validate(instance=spec, schema=...)`,
raising on any error) and leaves `actions_log` empty. The command loop
runs whenever no exception was raised, in both modes. `ValidationError`
maps to status `schema_error`, any other exception to `apply_error`. -/
def api_run_patch (applyChanges : Bool)
    (exec : String → Except String (Int × String × String))
    (root : AbsPath) (fs : FS) (spec : Json) : RunOutcome :=
  if applyChanges then
    match apply_patch_spec true root fs spec with
    | .ok (log, fs1) =>
      ⟨true, "patch_applied", some log,
       some (runCommands exec root (commandsList spec)).1, none, fs1,
       (runCommands exec root (commandsList spec)).2⟩
    | .error (ApplyErr.validation m) =>
      ⟨false, "schema_error", none, none, some m, fs, []⟩
    | .error (ApplyErr.runtime m fs1) =>
      ⟨false, "apply_error", none, none, some m, fs1, []⟩
  else
    if (sortErrs (validateTop spec)).isEmpty then
      ⟨true, "validated_only", some [],
       some (runCommands exec root (commandsList spec)).1, none, fs,
       (runCommands exec root (commandsList spec)).2⟩
    else
      ⟨false, "schema_error", none, none,
       some (renderErrors (sortErrs (validateTop spec))), fs, []⟩

/-! ## Field references in error reports -/

/-- Does `pat` occur as a contiguous run somewhere in `text`? -/
def subAt (pat : List Char) : List Char → Bool
  | [] => cpfx pat []
  | t :: ts => cpfx pat (t :: ts) || subAt pat ts

/-- Substring test on strings. -/
def strHasSub (text pat : String) : Bool := subAt pat.data text.data

/-- An error references a field when the field name occurs in its path
locator or, quoted, in its message. -/
def mentionsField (e : VErr) (k : String) : Bool :=
  e.path.contains (PathElem.s k) || strHasSub e.message (quoteKey k)

/-! ## Concrete inputs used by the scenario and counterexample theorems -/

/-- The scenario document of the spec: one utf-8 write of
`src/Main.java`. -/
def writeMainDoc : Json :=
  Json.obj [("version", Json.str "1"), ("intent", Json.str "apply_fixes"),
    ("changes", Json.arr [Json.obj [("action", Json.str "write"),
      ("path", Json.str "src/Main.java"), ("encoding", Json.str "utf-8"),
      ("content", Json.str "class Main \x7b\x7d")]])]

/-- An empty project root `/proj`. -/
def projFS : FS := [(["proj"], Node.dir)]

/-- A change whose path resolves to a sibling of the project root whose
rendered string shares the root string as a prefix. -/
def escapeSiblingDoc : Json :=
  Json.obj [("version", Json.str "1"), ("intent", Json.str "apply_fixes"),
    ("changes", Json.arr [Json.obj [("action", Json.str "write"),
      ("path", Json.str "../projX/evil.txt"), ("content", Json.str "x")]])]

/-- The disk around project root `/a/proj`. -/
def abProjFS : FS := [(["a"], Node.dir), (["a", "proj"], Node.dir)]

/-- A document whose first change succeeds and whose second escapes the
root beyond the prefix check. -/
def partialFailDoc : Json :=
  Json.obj [("version", Json.str "1"), ("intent", Json.str "apply_fixes"),
    ("changes", Json.arr [
      Json.obj [("action", Json.str "write"), ("path", Json.str "a.txt"),
        ("content", Json.str "hello")],
      Json.obj [("action", Json.str "write"), ("path", Json.str "../../etc/x"),
        ("content", Json.str "p")]])]

/-- A schema-conforming document whose change object carries an unknown
key `bogus`. -/
def unknownChangeKeyDoc : Json :=
  Json.obj [("version", Json.str "1"), ("intent", Json.str "apply_fixes"),
    ("changes", Json.arr [Json.obj [("action", Json.str "delete"),
      ("path", Json.str "x"), ("bogus", Json.str "y")]])]

/-- Move `a` to `b`, then recreate `a` by a write. -/
def moveThenWriteDoc : Json :=
  Json.obj [("version", Json.str "1"), ("intent", Json.str "apply_fixes"),
    ("changes", Json.arr [
      Json.obj [("action", Json.str "move"), ("path", Json.str "a"),
        ("from", Json.str "a"), ("to", Json.str "b")],
      Json.obj [("action", Json.str "write"), ("path", Json.str "a"),
        ("content", Json.str "new")]])]

/-- Project root `/r` holding one file `a` with content `old`. -/
def moveFS : FS := [(["r"], Node.dir), (["r", "a"], Node.file (FileContent.text "old"))]

/-- Project root `/r` with a directory `d` whose slot `d/a` is occupied:
the state a move of `a` into `d` leaves behind, used to observe the
`shutil.Error` branch of a re-applied move. -/
def occupiedDstFS : FS :=
  [(["r"], Node.dir), (["r", "d"], Node.dir),
   (["r", "d", "a"], Node.file (FileContent.text "z"))]

/-- A root `/r` with nothing in it. -/
def rootRFS : FS := [(["r"], Node.dir)]

/-- A well-shaped move change that omits `path`. -/
def moveNoPathDoc : Json :=
  Json.obj [("version", Json.str "1"), ("intent", Json.str "apply_fixes"),
    ("changes", Json.arr [Json.obj [("action", Json.str "move"),
      ("from", Json.str "a"), ("to", Json.str "b")]])]

/-- An empty change list together with two post-apply commands. -/
def cmdsDoc : Json :=
  Json.obj [("version", Json.str "1"), ("intent", Json.str "apply_fixes"),
    ("changes", Json.arr []),
    ("commands", Json.arr [Json.str "gradle build", Json.str "echo hi"])]

/-- A shell oracle whose commands all succeed silently. -/
def execOk : String → Except String (Int × String × String) := fun _ => .ok (0, "", "")

/-- A shell oracle that fails to spawn the first command and gives the
second a nonzero exit status: used to observe best-effort execution. -/
def execFlaky : String → Except String (Int × String × String) := fun c =>
  if c == "gradle build" then .error "No such file or directory"
  else .ok (1, "out", "err")

/-! ## Lemmas: sorting, substrings, lookups -/

theorem mem_insErr (x e : VErr) (l : List VErr) :
    x ∈ insErr e l ↔ x = e ∨ x ∈ l := by
  induction l with
  | nil => simp [insErr]
  | cons y ys ih =>
    unfold insErr
    cases hpb : pathLtB y.path e.path
    · rw [if_neg Bool.false_ne_true]
      exact List.mem_cons
    · rw [if_pos rfl, List.mem_cons, ih, List.mem_cons]
      exact or_left_comm

theorem mem_sortErrs (x : VErr) (l : List VErr) :
    x ∈ sortErrs l ↔ x ∈ l := by
  induction l with
  | nil => simp [sortErrs]
  | cons e es ih =>
    unfold sortErrs
    rw [mem_insErr, ih]
    simp

theorem cpfx_self (l : List Char) : cpfx l l = true := by
  induction l with
  | nil => rfl
  | cons a as ih => simp [cpfx, ih]

theorem cpfx_append_self (l m : List Char) : cpfx l (l ++ m) = true := by
  induction l with
  | nil => rfl
  | cons a as ih => simp [cpfx, ih]

theorem cpfx_append_of_cpfx (p t u : List Char) (h : cpfx p t = true) :
    cpfx p (t ++ u) = true := by
  induction p generalizing t with
  | nil => rfl
  | cons a as ih =>
    cases t with
    | nil => simp [cpfx] at h
    | cons b bs =>
      simp only [cpfx, Bool.and_eq_true] at h ⊢
      exact ⟨h.1, ih bs h.2⟩

theorem subAt_of_cpfx (pat t : List Char) (h : cpfx pat t = true) :
    subAt pat t = true := by
  cases t with
  | nil => exact h
  | cons a as => simp [subAt, h]

theorem subAt_append_right (pat t u : List Char) (h : subAt pat u = true) :
    subAt pat (t ++ u) = true := by
  induction t with
  | nil => exact h
  | cons a as ih =>
    show (cpfx pat (a :: (as ++ u)) || subAt pat (as ++ u)) = true
    simp [ih]

theorem subAt_append_left (pat t u : List Char) (h : subAt pat t = true) :
    subAt pat (t ++ u) = true := by
  induction t with
  | nil =>
    cases pat with
    | nil =>
      cases u with
      | nil => rfl
      | cons b bs => simp [subAt, cpfx]
    | cons a as => simp [subAt, cpfx] at h
  | cons a as ih =>
    simp only [subAt, Bool.or_eq_true] at h
    rcases h with h | h
    · simp only [List.cons_append, subAt, Bool.or_eq_true]
      exact Or.inl (cpfx_append_of_cpfx _ _ _ h)
    · simp only [List.cons_append, subAt, Bool.or_eq_true]
      exact Or.inr (ih h)

theorem strData_append (a b : String) : (a ++ b).data = a.data ++ b.data := rfl

theorem strHasSub_self_append (pat rest : String) :
    strHasSub (pat ++ rest) pat = true := by
  unfold strHasSub
  rw [strData_append]
  exact subAt_of_cpfx _ _ (cpfx_append_self _ _)

theorem strHasSub_append_right (t u pat : String) (h : strHasSub u pat = true) :
    strHasSub (t ++ u) pat = true := by
  unfold strHasSub at h ⊢
  rw [strData_append]
  exact subAt_append_right _ _ _ h

theorem quoteKey_in_joinCommaQuoted (k : String) (l : List String) (h : k ∈ l) :
    strHasSub (joinCommaQuoted l) (quoteKey k) = true := by
  induction l with
  | nil => cases h
  | cons a as ih =>
    cases as with
    | nil =>
      rcases List.mem_singleton.mp h with rfl
      show strHasSub (quoteKey k) (quoteKey k) = true
      unfold strHasSub
      exact subAt_of_cpfx _ _ (cpfx_self _)
    | cons b bs =>
      rcases List.mem_cons.mp h with rfl | h2
      · show strHasSub (quoteKey k ++ ", " ++ joinCommaQuoted (b :: bs)) (quoteKey k) = true
        rw [String.append_assoc]
        exact strHasSub_self_append _ _
      · show strHasSub (quoteKey a ++ ", " ++ joinCommaQuoted (b :: bs)) (quoteKey k) = true
        rw [String.append_assoc]
        exact strHasSub_append_right _ _ _ (ih h2)

theorem fsLookup_append (l1 l2 : FS) (q : AbsPath) :
    fsLookup (l1 ++ l2) q = (fsLookup l1 q).or (fsLookup l2 q) := by
  induction l1 with
  | nil => simp [fsLookup, Option.or]
  | cons e es ih =>
    cases hk : (e.1 == q)
    · simp [fsLookup, hk, ih]
    · simp [fsLookup, hk, Option.or]

theorem fsLookup_single_self (q : AbsPath) (n : Node) :
    fsLookup [(q, n)] q = some n := by
  simp [fsLookup]

theorem fsLookup_single_other (p q : AbsPath) (n : Node) (h : q ≠ p) :
    fsLookup [(p, n)] q = none := by
  have hpq : (p == q) = false := beq_eq_false_iff_ne.mpr (fun hc => h hc.symm)
  simp [fsLookup, hpq]

/-! ## Lemmas: file writes -/

theorem fsLookup_replaceList_self (fs : FS) (p : AbsPath) (c : FileContent)
    (n : Node) (h : fsLookup fs p = some n) :
    fsLookup (replaceList fs p c) p = some (Node.file c) := by
  induction fs with
  | nil => simp [fsLookup] at h
  | cons e es ih =>
    cases hk : (e.1 == p)
    · have h2 : fsLookup es p = some n := by
        simpa [fsLookup, hk] using h
      have := ih h2
      simpa only [replaceList, fsLookup, hk, Bool.false_eq_true, if_false] using this
    · simp only [replaceList, fsLookup, hk, if_true]
      simp [fsLookup]

theorem fsLookup_replaceList_other (fs : FS) (p q : AbsPath) (c : FileContent)
    (h : q ≠ p) :
    fsLookup (replaceList fs p c) q = fsLookup fs q := by
  have hpq : (p == q) = false := beq_eq_false_iff_ne.mpr (fun hc => h hc.symm)
  induction fs with
  | nil => rfl
  | cons e es ih =>
    cases hk : (e.1 == p)
    · cases hq : (e.1 == q)
      · simpa only [replaceList, fsLookup, hk, hq, Bool.false_eq_true, if_false] using ih
      · simp only [replaceList, fsLookup, hk, hq, Bool.false_eq_true, if_false, if_true]
    · have hep : e.1 = p := by simpa using hk
      have he : (e.1 == q) = false := by rw [hep]; exact hpq
      simpa only [replaceList, fsLookup, hk, hpq, he, Bool.false_eq_true, if_false,
        if_true] using ih

theorem replaceList_idem (fs : FS) (p : AbsPath) (c : FileContent) :
    replaceList (replaceList fs p c) p c = replaceList fs p c := by
  induction fs with
  | nil => rfl
  | cons e es ih =>
    cases hk : (e.1 == p)
    · simp only [replaceList, hk, Bool.false_eq_true, if_false, ih]
    · simp only [replaceList, hk, if_true]
      simp only [replaceList, beq_self_eq_true, if_true, ih]

theorem replaceList_append (l1 l2 : FS) (p : AbsPath) (c : FileContent) :
    replaceList (l1 ++ l2) p c = replaceList l1 p c ++ replaceList l2 p c := by
  induction l1 with
  | nil => rfl
  | cons e es ih =>
    show (if (e.1 == p) = true then (p, Node.file c) else e) :: replaceList (es ++ l2) p c
       = ((if (e.1 == p) = true then (p, Node.file c) else e) :: replaceList es p c)
         ++ replaceList l2 p c
    rw [List.cons_append, ih]

theorem replaceList_of_lookup_none (fs : FS) (p : AbsPath) (c : FileContent)
    (h : fsLookup fs p = none) : replaceList fs p c = fs := by
  induction fs with
  | nil => rfl
  | cons e es ih =>
    cases hk : (e.1 == p)
    · have h2 : fsLookup es p = none := by
        simpa [fsLookup, hk] using h
      simp only [replaceList, hk, Bool.false_eq_true, if_false, ih h2]
    · simp [fsLookup, hk] at h

theorem setFile_ok_lookup (fs fs1 : FS) (p : AbsPath) (c : FileContent)
    (h : setFile fs p c = .ok fs1) :
    fsLookup fs1 p = some (Node.file c) := by
  unfold setFile at h
  cases hl : fsLookup fs p with
  | none =>
    rw [hl] at h
    cases h
    rw [fsLookup_append, hl, fsLookup_single_self]
    rfl
  | some n =>
    cases n with
    | dir => rw [hl] at h; cases h
    | file d =>
      rw [hl] at h
      cases h
      exact fsLookup_replaceList_self fs p c _ hl

theorem setFile_ok_lookup_other (fs fs1 : FS) (p q : AbsPath) (c : FileContent)
    (hne : q ≠ p) (h : setFile fs p c = .ok fs1) :
    fsLookup fs1 q = fsLookup fs q := by
  unfold setFile at h
  cases hl : fsLookup fs p with
  | none =>
    rw [hl] at h
    cases h
    rw [fsLookup_append, fsLookup_single_other _ _ _ hne]
    cases fsLookup fs q <;> rfl
  | some n =>
    cases n with
    | dir => rw [hl] at h; cases h
    | file d =>
      rw [hl] at h
      cases h
      exact fsLookup_replaceList_other fs p q c hne

theorem setFile_idem (fs fs1 : FS) (p : AbsPath) (c : FileContent)
    (h : setFile fs p c = .ok fs1) : setFile fs1 p c = .ok fs1 := by
  have hl1 : fsLookup fs1 p = some (Node.file c) := setFile_ok_lookup fs fs1 p c h
  unfold setFile at h ⊢
  rw [hl1]
  cases hl : fsLookup fs p with
  | none =>
    rw [hl] at h
    cases h
    rw [replaceList_append, replaceList_of_lookup_none fs p c hl]
    simp [replaceList]
  | some n =>
    cases n with
    | dir => rw [hl] at h; cases h
    | file d =>
      rw [hl] at h
      cases h
      rw [replaceList_idem]

theorem insertDirs_extends (rest : List String) :
    ∀ (fs : FS) (pref : AbsPath) (fs1 : FS),
      insertDirs fs pref rest = .ok fs1 → ∃ ext, fs1 = fs ++ ext := by
  induction rest with
  | nil =>
    intro fs pref fs1 h
    cases h
    exact ⟨[], by simp⟩
  | cons c rs ih =>
    intro fs pref fs1 h
    unfold insertDirs at h
    cases hl : fsLookup fs (pref ++ [c]) with
    | none =>
      rw [hl] at h
      rcases ih _ _ _ h with ⟨ext, hext⟩
      exact ⟨[(pref ++ [c], Node.dir)] ++ ext, by rw [hext, List.append_assoc]⟩
    | some n =>
      cases n with
      | dir =>
        rw [hl] at h
        exact ih _ _ _ h
      | file d => rw [hl] at h; cases h

theorem insertDirs_idem (rest : List String) :
    ∀ (fs : FS) (pref : AbsPath) (fs1 : FS),
      insertDirs fs pref rest = .ok fs1 → insertDirs fs1 pref rest = .ok fs1 := by
  induction rest with
  | nil =>
    intro fs pref fs1 h
    cases h
    rfl
  | cons c rs ih =>
    intro fs pref fs1 h
    unfold insertDirs at h ⊢
    cases hl : fsLookup fs (pref ++ [c]) with
    | none =>
      rw [hl] at h
      rcases insertDirs_extends rs _ _ _ h with ⟨ext, hext⟩
      have hl1 : fsLookup fs1 (pref ++ [c]) = some Node.dir := by
        rw [hext, List.append_assoc, fsLookup_append, hl]
        rw [fsLookup_append, fsLookup_single_self]
        rfl
      rw [hl1]
      exact ih _ _ _ h
    | some n =>
      cases n with
      | dir =>
        rw [hl] at h
        rcases insertDirs_extends rs _ _ _ h with ⟨ext, hext⟩
        have hl1 : fsLookup fs1 (pref ++ [c]) = some Node.dir := by
          rw [hext, fsLookup_append, hl]
          rfl
        rw [hl1]
        exact ih _ _ _ h
      | file d => rw [hl] at h; cases h

theorem insertDirs_congr (rest : List String) :
    ∀ (fs g : FS) (pref : AbsPath),
      insertDirs fs pref rest = .ok fs →
      (∀ q : AbsPath, q.length ≤ pref.length + rest.length →
        fsLookup g q = fsLookup fs q) →
      insertDirs g pref rest = .ok g := by
  induction rest with
  | nil => intro fs g pref _ _; rfl
  | cons c rs ih =>
    intro fs g pref h hq
    have hlen : (pref ++ [c]).length ≤ pref.length + (c :: rs).length := by
      simp
    have hg : fsLookup g (pref ++ [c]) = fsLookup fs (pref ++ [c]) := hq _ hlen
    unfold insertDirs at h ⊢
    cases hl : fsLookup fs (pref ++ [c]) with
    | none =>
      rw [hl] at h
      rcases insertDirs_extends rs _ _ _ h with ⟨ext, hext⟩
      have hlen2 := congrArg List.length hext
      simp at hlen2
    | some n =>
      cases n with
      | dir =>
        rw [hl] at h
        rw [hg, hl]
        refine ih fs g (pref ++ [c]) h ?_
        intro q hql
        refine hq q ?_
        simp at hql ⊢
        omega
      | file d => rw [hl] at h; cases h

theorem mkdirParents_after_setFile (fsA fs1 : FS) (target : AbsPath)
    (d : FileContent) (hAA : insertDirs fsA [] target.dropLast = .ok fsA)
    (hset : setFile fsA target d = .ok fs1) :
    mkdirParents fs1 target.dropLast = .ok fs1 := by
  cases target with
  | nil => rfl
  | cons t ts =>
    unfold mkdirParents
    refine insertDirs_congr _ fsA fs1 [] hAA ?_
    intro q hql
    refine setFile_ok_lookup_other fsA fs1 _ q d ?_ hset
    intro hqe
    subst hqe
    rw [List.length_dropLast] at hql
    simp only [List.length_nil, List.length_cons, Nat.zero_add] at hql
    omega

/-- Re-running a successful `write_file` with the same arguments on its
own output filesystem succeeds and changes nothing. -/
theorem write_file_idem (fs fs1 : FS) (target : AbsPath) (content encoding : String)
    (h : write_file fs target content encoding = .ok fs1) :
    write_file fs1 target content encoding = .ok fs1 := by
  unfold write_file at h
  split at h
  · cases h
  next fsA hmk =>
    have hAA : insertDirs fsA [] target.dropLast = .ok fsA :=
      insertDirs_idem _ _ _ _ hmk
    split at h
    · -- base64 branch
      next hb =>
      split at h
      · cases h
      next data hdec =>
        split at h
        · cases h
        next fs2 hset =>
          cases h
          have k1 := mkdirParents_after_setFile fsA fs1 target _ hAA hset
          have k2 := setFile_idem _ _ _ _ hset
          simp only [write_file, k1, hb, if_true, hdec, k2]
    · -- utf-8 branch
      next hb =>
      split at h
      · cases h
      next fs2 hset =>
        cases h
        have k1 := mkdirParents_after_setFile fsA fs1 target _ hAA hset
        have k2 := setFile_idem _ _ _ _ hset
        simp only [write_file, k1, hb, Bool.false_eq_true, if_false, k2]

/-! ## Lemmas: validator membership, apply unfolding -/

theorem strHasSub_mid (a b c pat : String) (h : strHasSub b pat = true) :
    strHasSub (a ++ b ++ c) pat = true := by
  unfold strHasSub at h ⊢
  rw [strData_append, strData_append]
  exact subAt_append_left _ _ _ (subAt_append_right _ _ _ h)

theorem validateTop_required_mem (fields : List (String × Json)) (k : String)
    (hk : k ∈ (["version", "intent", "changes"] : List String))
    (hnone : jLookup fields k = none) :
    (⟨[], quoteKey k ++ " is a required property"⟩ : VErr)
      ∈ validateTop (Json.obj fields) := by
  unfold validateTop
  apply List.mem_append_left
  apply List.mem_append_left
  apply List.mem_append_left
  apply List.mem_append_left
  apply List.mem_append_left
  apply List.mem_append_left
  apply List.mem_map_of_mem
  exact List.mem_filter.mpr ⟨hk, by simp [hnone]⟩

theorem validateTop_unknown_mem (fields : List (String × Json)) (k : String)
    (hk : k ∈ fields.map Prod.fst) (hunk : knownTopKeys.contains k = false) :
    ∃ e ∈ validateTop (Json.obj fields), mentionsField e k = true := by
  have hpk : (fun x => decide (¬ knownTopKeys.contains x = true)) k = true := by
    show decide (¬ knownTopKeys.contains k = true) = true
    rw [hunk]
    rfl
  have hkin : k ∈ (fields.map Prod.fst).filter (fun x => ¬ knownTopKeys.contains x) :=
    List.mem_filter.mpr ⟨hk, hpk⟩
  refine ⟨⟨[], "Additional properties are not allowed (" ++
      joinCommaQuoted ((fields.map Prod.fst).filter (fun x => ¬ knownTopKeys.contains x)) ++
      " were unexpected)"⟩, ?_, ?_⟩
  · unfold validateTop
    apply List.mem_append_left
    apply List.mem_append_left
    apply List.mem_append_left
    apply List.mem_append_left
    apply List.mem_append_left
    apply List.mem_append_right
    have hne : ((fields.map Prod.fst).filter
        (fun x => ¬ knownTopKeys.contains x)).isEmpty = false := by
      cases hc : (fields.map Prod.fst).filter (fun x => ¬ knownTopKeys.contains x) with
      | nil => rw [hc] at hkin; cases hkin
      | cons a as => rfl
    rw [hne]
    simp only [Bool.false_eq_true, if_false]
    exact List.mem_singleton.mpr rfl
  · unfold mentionsField
    refine Bool.or_eq_true_iff.mpr (Or.inr ?_)
    exact strHasSub_mid _ _ _ _ (quoteKey_in_joinCommaQuoted k _ hkin)

theorem validateChanges_item_mem (changes : List Json) (i : Nat) (cj : Json)
    (e : VErr) (hmem : (i, cj) ∈ changes.enum)
    (he : e ∈ validateChangeItem i cj) :
    e ∈ validateChanges (Json.arr changes) := by
  unfold validateChanges
  rw [List.mem_flatten]
  exact ⟨validateChangeItem i cj, List.mem_map_of_mem _ hmem, he⟩

theorem validateTop_changes_mem (fields : List (String × Json)) (v : Json)
    (e : VErr) (hch : jLookup fields "changes" = some v)
    (he : e ∈ validateChanges v) :
    e ∈ validateTop (Json.obj fields) := by
  unfold validateTop
  apply List.mem_append_left
  apply List.mem_append_left
  apply List.mem_append_right
  rw [hch]
  exact he

theorem validateChangeItem_action_enum (i : Nat) (cf : List (String × Json))
    (a : String) (hact : jLookup cf "action" = some (Json.str a))
    (hbad : knownActions.contains a = false) :
    (⟨[PathElem.s "changes", PathElem.i i, PathElem.s "action"],
      jsonRepr (Json.str a) ++ " is not one of " ++ joinCommaQuoted knownActions⟩ : VErr)
      ∈ validateChangeItem i (Json.obj cf) := by
  unfold validateChangeItem
  apply List.mem_append_left
  apply List.mem_append_left
  apply List.mem_append_left
  apply List.mem_append_left
  apply List.mem_append_left
  apply List.mem_append_left
  apply List.mem_append_left
  apply List.mem_append_left
  apply List.mem_append_right
  rw [hact]
  show _ ∈ (if (knownActions.isEmpty || knownActions.contains a) = true then []
    else [(⟨[PathElem.s "changes", PathElem.i i] ++ [PathElem.s "action"],
      jsonRepr (Json.str a) ++ " is not one of " ++ joinCommaQuoted knownActions⟩ : VErr)])
  have hcond : (knownActions.isEmpty || knownActions.contains a) = false := by
    rw [hbad]
    rfl
  rw [hcond]
  simp only [Bool.false_eq_true, if_false]
  exact List.mem_singleton.mpr rfl

theorem validateChangeItem_path_required (i : Nat) (cf : List (String × Json))
    (h3 : jLookup cf "path" = none) :
    (⟨[PathElem.s "changes", PathElem.i i],
      quoteKey "path" ++ " is a required property"⟩ : VErr)
      ∈ validateChangeItem i (Json.obj cf) := by
  unfold validateChangeItem
  apply List.mem_append_left
  apply List.mem_append_left
  apply List.mem_append_left
  apply List.mem_append_left
  apply List.mem_append_left
  apply List.mem_append_left
  apply List.mem_append_left
  apply List.mem_append_left
  apply List.mem_append_left
  apply List.mem_map_of_mem
  refine List.mem_filter.mpr ⟨?_, by simp [h3]⟩
  simp

theorem apply_patch_spec_of_errors (ac : Bool) (root : AbsPath) (fs : FS)
    (spec : Json) (h : (sortErrs (validateTop spec)).isEmpty = false) :
    apply_patch_spec ac root fs spec =
      .error (ApplyErr.validation (renderErrors (sortErrs (validateTop spec)))) := by
  unfold apply_patch_spec
  rw [h]
  simp only [Bool.false_eq_true, if_false]

theorem isEmpty_false_of_mem {e : VErr} {l : List VErr} (h : e ∈ l) :
    l.isEmpty = false := by
  cases l with
  | nil => cases h
  | cons a as => rfl

theorem applyChange_delete_absent (root : AbsPath) (fs : FS) (p : String)
    (log : List String)
    (hsafe : pyStartswith (pathStr (resolveUnder root p)) (pathStr root) = true)
    (habs : fsLookup fs (resolveUnder root p) = none) :
    applyChange true root
      (Json.obj [("action", Json.str "delete"), ("path", Json.str p)]) (log, fs)
    = .ok (log ++ ["DELETE " ++ p], fs) := by
  have hdel : deleteOp fs (resolveUnder root p) = fs := by
    unfold deleteOp
    rw [habs]
  show (if ¬ (pyStartswith (pathStr (resolveUnder root p)) (pathStr root) = true)
      then _ else _) = _
  rw [if_neg (not_not_intro hsafe)]
  show Except.ok (log ++ ["DELETE " ++ p], deleteOp fs (resolveUnder root p)) = _
  rw [hdel]

theorem moveOp_absent_src (fs : FS) (src dst : AbsPath)
    (h : fsLookup fs src = none) :
    moveOp fs src dst = .error (moveAbsentMsg fs src dst) := by
  unfold moveOp moveAbsentMsg
  by_cases hd : fsLookup fs dst = some Node.dir
  · rw [if_pos hd]
    by_cases hs : (fsLookup fs (dst ++ src.drop (src.length - 1))).isSome = true
    · rw [if_pos hs, if_pos ⟨hd, hs⟩]
    · rw [if_neg hs, if_neg (fun hc => hs hc.2), h]
  · rw [if_neg hd, if_neg (fun hc => hd hc.1), h]

theorem applyChange_move_absent (root : AbsPath) (fs : FS) (pp f t : String)
    (log : List String)
    (hp : pyStartswith (pathStr (resolveUnder root pp)) (pathStr root) = true)
    (hf : pyStartswith (pathStr (resolveUnder root f)) (pathStr root) = true)
    (ht : pyStartswith (pathStr (resolveUnder root t)) (pathStr root) = true)
    (hmk : mkdirParents fs (resolveUnder root t).dropLast = .ok fs)
    (habs : fsLookup fs (resolveUnder root f) = none) :
    applyChange true root
      (Json.obj [("action", Json.str "move"), ("path", Json.str pp),
        ("from", Json.str f), ("to", Json.str t)]) (log, fs)
    = .error (ApplyErr.runtime
        (moveAbsentMsg fs (resolveUnder root f) (resolveUnder root t)) fs) := by
  have hmv : moveOp fs (resolveUnder root f) (resolveUnder root t)
      = .error (moveAbsentMsg fs (resolveUnder root f) (resolveUnder root t)) :=
    moveOp_absent_src fs _ _ habs
  have step1 : applyChange true root
      (Json.obj [("action", Json.str "move"), ("path", Json.str pp),
        ("from", Json.str f), ("to", Json.str t)]) (log, fs)
      = (match moveOp fs (resolveUnder root f) (resolveUnder root t) with
         | .error m => .error (ApplyErr.runtime m fs)
         | .ok fs2 => .ok (log ++ ["MOVE " ++ f ++ " -> " ++ t], fs2)) := by
    show (if ¬ (pyStartswith (pathStr (resolveUnder root pp)) (pathStr root) = true)
        then _ else _) = _
    rw [if_neg (not_not_intro hp)]
    show (if ¬ (pyStartswith (pathStr (resolveUnder root f)) (pathStr root) = true) ∨
            ¬ (pyStartswith (pathStr (resolveUnder root t)) (pathStr root) = true)
        then _ else _) = _
    rw [if_neg (by
      intro hor
      rcases hor with hna | hnb
      · exact hna hf
      · exact hnb ht)]
    show (match mkdirParents fs (resolveUnder root t).dropLast with
      | .error (m, fs1) => Except.error (ApplyErr.runtime m fs1)
      | .ok fs1 =>
        match moveOp fs1 (resolveUnder root f) (resolveUnder root t) with
        | .error m => Except.error (ApplyErr.runtime m fs1)
        | .ok fs2 => Except.ok (log ++ ["MOVE " ++ f ++ " -> " ++ t], fs2)) = _
    rw [hmk]
  rw [step1, hmv]

theorem api_run_patch_dry_run (spec : Json) (root : AbsPath) (fs : FS)
    (exec : String → Except String (Int × String × String))
    (h : sortErrs (validateTop spec) = []) :
    api_run_patch false exec root fs spec =
      ⟨true, "validated_only", some [],
       some (runCommands exec root (commandsList spec)).1, none, fs,
       (runCommands exec root (commandsList spec)).2⟩ := by
  unfold api_run_patch
  rw [if_neg Bool.false_ne_true, h]
  rfl

/-! ## Claim theorems -/

/-- C1: the spec claims every change whose path resolves outside the
project root fails with a path-escape error before any mutation. The code
checks `str(target).startswith(str(root))` without a trailing separator,
so a path resolving to a sibling directory whose rendered string shares
the root string as a prefix is accepted: applying the change-set with
path `../projX/evil.txt` under root `/a/proj` succeeds and creates
`/a/projX/evil.txt`, a file outside the project root. -/
theorem c1_sibling_prefix_escape :
    underRoot ["a", "proj"] (resolveUnder ["a", "proj"] "../projX/evil.txt") = false ∧
    apply_patch_spec true ["a", "proj"] abProjFS escapeSiblingDoc =
      .ok (["WRITE ../projX/evil.txt"],
        [(["a"], Node.dir), (["a", "proj"], Node.dir), (["a", "projX"], Node.dir),
         (["a", "projX", "evil.txt"], Node.file (FileContent.text "x"))]) ∧
    fsLookup [(["a"], Node.dir), (["a", "proj"], Node.dir), (["a", "projX"], Node.dir),
        (["a", "projX", "evil.txt"], Node.file (FileContent.text "x"))]
      ["a", "projX", "evil.txt"] = some (Node.file (FileContent.text "x")) :=
  ⟨rfl, rfl, rfl⟩

/-- C8: applying the scenario document (one utf-8 write of `src/Main.java`)
to an empty project root with apply enabled leaves exactly that file with
the exact content, and the action log holds exactly the single entry
`WRITE src/Main.java`. -/
theorem c8_write_scenario :
    apply_patch_spec true ["proj"] projFS writeMainDoc =
      .ok (["WRITE src/Main.java"],
        [(["proj"], Node.dir), (["proj", "src"], Node.dir),
         (["proj", "src", "Main.java"],
           Node.file (FileContent.text "class Main \x7b\x7d"))]) ∧
    fsLookup [(["proj"], Node.dir), (["proj", "src"], Node.dir),
        (["proj", "src", "Main.java"],
          Node.file (FileContent.text "class Main \x7b\x7d"))]
      ["proj", "src", "Main.java"]
      = some (Node.file (FileContent.text "class Main \x7b\x7d")) :=
  ⟨rfl, rfl⟩

/-- C2 counterexample: with the apply-enabled flag false, `api_run` does
not call the applier at all; on the scenario document the dry-run action
log is empty while the real apply logs one entry, so the logs are not
identical in shape. -/
theorem c2_counterexample :
    (api_run_patch false execOk ["proj"] projFS writeMainDoc).actions = some [] ∧
    (api_run_patch true execOk ["proj"] projFS writeMainDoc).actions
      = some ["WRITE src/Main.java"] ∧
    (api_run_patch false execOk ["proj"] projFS writeMainDoc).actions
      ≠ (api_run_patch true execOk ["proj"] projFS writeMainDoc).actions :=
  ⟨rfl, rfl, by decide⟩

/-- C2 (amended): with the apply-enabled flag false, a schema-valid
document is only validated: the run reports status `validated_only` with
an empty action log (not a log identical in shape to a real apply), and
the applier leaves the filesystem unchanged. -/
theorem c2_dry_run_validates_only (spec : Json) (root : AbsPath) (fs : FS)
    (exec : String → Except String (Int × String × String))
    (h : sortErrs (validateTop spec) = []) :
    (api_run_patch false exec root fs spec).status = "validated_only" ∧
    (api_run_patch false exec root fs spec).actions = some [] ∧
    (api_run_patch false exec root fs spec).ok = true ∧
    (api_run_patch false exec root fs spec).fs = fs := by
  rw [api_run_patch_dry_run spec root fs exec h]
  exact ⟨rfl, rfl, rfl, rfl⟩

/-- C2 witness: the amended dry-run behavior at the scenario document. -/
theorem c2_witness :
    (api_run_patch false execOk ["proj"] projFS writeMainDoc).status
      = "validated_only" ∧
    (api_run_patch false execOk ["proj"] projFS writeMainDoc).actions = some [] ∧
    (api_run_patch false execOk ["proj"] projFS writeMainDoc).ok = true ∧
    (api_run_patch false execOk ["proj"] projFS writeMainDoc).fs = projFS :=
  c2_dry_run_validates_only writeMainDoc ["proj"] projFS execOk rfl

/-- C3: even when the apply-enabled environment value is `0` or `false`
(dry-run), every entry of the `commands` list of a schema-valid document
is still handed to the shell for real, in order, with the project root as
working directory. -/
theorem c3_commands_run_despite_dry_run (spec : Json) (root : AbsPath) (fs : FS)
    (exec : String → Except String (Int × String × String))
    (h : sortErrs (validateTop spec) = []) :
    parseApplyChanges (some "0") = false ∧
    parseApplyChanges (some "false") = false ∧
    (api_run_patch false exec root fs spec).executed =
      (commandsList spec).map (fun cc => (cc, root)) := by
  refine ⟨rfl, rfl, ?_⟩
  rw [api_run_patch_dry_run spec root fs exec h]
  rfl

/-- C3 witness: both commands of a document with two `commands` entries
are executed in order in the project root although apply is disabled. -/
theorem c3_witness :
    (api_run_patch false execOk ["proj"] projFS cmdsDoc).executed =
      [("gradle build", ["proj"]), ("echo hi", ["proj"])] := by
  rw [(c3_commands_run_despite_dry_run cmdsDoc ["proj"] projFS execOk rfl).2.2]
  rfl

/-- C4 counterexample: when the second change of a document escapes the
root, the run reports `apply_error` with no `actions` key at all — the
partial action log is not carried — while the first change (a completed
write) persists on disk. -/
theorem c4_counterexample :
    (api_run_patch true execOk ["proj"] projFS partialFailDoc).status
      = "apply_error" ∧
    (api_run_patch true execOk ["proj"] projFS partialFailDoc).actions = none ∧
    fsLookup (api_run_patch true execOk ["proj"] projFS partialFailDoc).fs
      ["proj", "a.txt"] = some (Node.file (FileContent.text "hello")) :=
  ⟨rfl, rfl, rfl⟩

/-- C4 (amended): when applying fails partway with a runtime error, the
run terminates with status `apply_error`; the filesystem stays in its
at-failure state (earlier changes are not rolled back), but the partial
action log is discarded — the error response carries no action log. -/
theorem c4_error_discards_log (root : AbsPath) (fs : FS) (spec : Json)
    (exec : String → Except String (Int × String × String))
    (m : String) (fs1 : FS)
    (h : apply_patch_spec true root fs spec = .error (ApplyErr.runtime m fs1)) :
    api_run_patch true exec root fs spec =
      ⟨false, "apply_error", none, none, some m, fs1, []⟩ := by
  unfold api_run_patch
  rw [if_pos rfl, h]

/-- C4 witness: the amended failure shape at the concrete two-change
document whose second change escapes the root. -/
theorem c4_witness :
    api_run_patch true execOk ["proj"] projFS partialFailDoc =
      ⟨false, "apply_error", none, none,
       some "Unsafe path outside project: ../../etc/x",
       [(["proj"], Node.dir), (["proj", "a.txt"], Node.file (FileContent.text "hello"))],
       []⟩ :=
  c4_error_discards_log ["proj"] projFS partialFailDoc execOk _ _ rfl

/-- A document lacking the `version` key. -/
def missingVersionDoc : Json :=
  Json.obj [("intent", Json.str "apply_fixes"), ("changes", Json.arr [])]

/-- A document carrying the unknown top-level key `zap`. -/
def unknownTopKeyDoc : Json :=
  Json.obj [("version", Json.str "1"), ("intent", Json.str "apply_fixes"),
    ("changes", Json.arr []), ("zap", Json.str "1")]

/-- A document whose only change names the unknown action `zap`. -/
def unknownActionDoc : Json :=
  Json.obj [("version", Json.str "1"), ("intent", Json.str "apply_fixes"),
    ("changes", Json.arr [Json.obj [("action", Json.str "zap"),
      ("path", Json.str "x")]])]

/-- C5 counterexample: a schema-conforming document whose change object
carries the unknown key `bogus` passes validation with no errors and is
applied without complaint — change objects are not a closed schema. -/
theorem c5_counterexample :
    validateTop unknownChangeKeyDoc = [] ∧
    apply_patch_spec true ["r"] rootRFS unknownChangeKeyDoc =
      .ok (["DELETE x"], rootRFS) :=
  ⟨rfl, rfl⟩

/-- C5 (amended): documents missing `version`, `intent`, or `changes`,
or containing an unknown top-level key, or containing an unknown
`action`, fail validation with at least one error referencing the
offending field, and `apply_patch_spec` then raises the validation
error; unknown keys inside change objects, however, are permitted. -/
theorem c5_schema_error_reporting :
    (∀ (fields : List (String × Json)) (k : String),
      k ∈ (["version", "intent", "changes"] : List String) →
      jLookup fields k = none →
      ∃ e ∈ sortErrs (validateTop (Json.obj fields)), mentionsField e k = true) ∧
    (∀ (fields : List (String × Json)) (k : String),
      k ∈ fields.map Prod.fst → knownTopKeys.contains k = false →
      ∃ e ∈ sortErrs (validateTop (Json.obj fields)), mentionsField e k = true) ∧
    (∀ (fields : List (String × Json)) (changes : List Json) (i : Nat)
      (cf : List (String × Json)) (a : String),
      jLookup fields "changes" = some (Json.arr changes) →
      (i, Json.obj cf) ∈ changes.enum →
      jLookup cf "action" = some (Json.str a) →
      knownActions.contains a = false →
      ∃ e ∈ sortErrs (validateTop (Json.obj fields)),
        mentionsField e "action" = true) ∧
    (∀ (spec : Json) (ac : Bool) (root : AbsPath) (fs : FS) (e : VErr),
      e ∈ sortErrs (validateTop spec) →
      apply_patch_spec ac root fs spec =
        .error (ApplyErr.validation (renderErrors (sortErrs (validateTop spec))))) := by
  refine ⟨?_, ?_, ?_, ?_⟩
  · intro fields k hk hnone
    refine ⟨⟨[], quoteKey k ++ " is a required property"⟩, ?_, ?_⟩
    · exact (mem_sortErrs _ _).mpr (validateTop_required_mem fields k hk hnone)
    · unfold mentionsField
      exact Bool.or_eq_true_iff.mpr (Or.inr (strHasSub_self_append _ _))
  · intro fields k hk hunk
    rcases validateTop_unknown_mem fields k hk hunk with ⟨e, he, hm⟩
    exact ⟨e, (mem_sortErrs _ _).mpr he, hm⟩
  · intro fields changes i cf a hch hmem hact hbad
    refine ⟨⟨[PathElem.s "changes", PathElem.i i, PathElem.s "action"],
      jsonRepr (Json.str a) ++ " is not one of " ++ joinCommaQuoted knownActions⟩,
      ?_, ?_⟩
    · exact (mem_sortErrs _ _).mpr
        (validateTop_changes_mem fields _ _ hch
          (validateChanges_item_mem changes i _ _ hmem
            (validateChangeItem_action_enum i cf a hact hbad)))
    · rfl
  · intro spec ac root fs e hmem
    exact apply_patch_spec_of_errors ac root fs spec (isEmpty_false_of_mem hmem)

/-- C5 witness: the amended reporting behavior at a document missing
`version`, one with the unknown top-level key `zap`, one with the unknown
action `zap`, and the validation failure of the apply entry point. -/
theorem c5_witness :
    (∃ e ∈ sortErrs (validateTop missingVersionDoc),
      mentionsField e "version" = true) ∧
    (∃ e ∈ sortErrs (validateTop unknownTopKeyDoc),
      mentionsField e "zap" = true) ∧
    (∃ e ∈ sortErrs (validateTop unknownActionDoc),
      mentionsField e "action" = true) ∧
    apply_patch_spec true ["r"] rootRFS missingVersionDoc =
      .error (ApplyErr.validation
        (renderErrors (sortErrs (validateTop missingVersionDoc)))) := by
  refine ⟨c5_schema_error_reporting.1 _ "version" (by decide) rfl,
    c5_schema_error_reporting.2.1 _ "zap" (by decide) rfl,
    c5_schema_error_reporting.2.2.1 _ _ 0 _ "zap" rfl
      (List.mem_singleton.mpr rfl) rfl rfl, ?_⟩
  rcases c5_schema_error_reporting.1
      [("intent", Json.str "apply_fixes"), ("changes", Json.arr [])]
      "version" (by decide) rfl with ⟨e, he, _⟩
  exact c5_schema_error_reporting.2.2.2 missingVersionDoc true ["r"] rootRFS e he

/-- C7 counterexample: a document that moves `a` to `b` and then rewrites
`a` is not idempotent: the first apply leaves `b` with the old content,
the second apply succeeds again but moves the rewritten `a` onto `b`, so
the final filesystem states differ at `b`. -/
theorem c7_counterexample :
    apply_patch_spec true ["r"] moveFS moveThenWriteDoc =
      .ok (["MOVE a -> b", "WRITE a"],
        [(["r"], Node.dir), (["r", "b"], Node.file (FileContent.text "old")),
         (["r", "a"], Node.file (FileContent.text "new"))]) ∧
    apply_patch_spec true ["r"]
      [(["r"], Node.dir), (["r", "b"], Node.file (FileContent.text "old")),
       (["r", "a"], Node.file (FileContent.text "new"))] moveThenWriteDoc =
      .ok (["MOVE a -> b", "WRITE a"],
        [(["r"], Node.dir), (["r", "b"], Node.file (FileContent.text "new")),
         (["r", "a"], Node.file (FileContent.text "new"))]) ∧
    fsLookup [(["r"], Node.dir), (["r", "b"], Node.file (FileContent.text "new")),
        (["r", "a"], Node.file (FileContent.text "new"))] ["r", "b"] ≠
      fsLookup [(["r"], Node.dir), (["r", "b"], Node.file (FileContent.text "old")),
        (["r", "a"], Node.file (FileContent.text "new"))] ["r", "b"] :=
  ⟨rfl, rfl, by decide⟩

/-- C7 (amended): applying a change-set twice is not idempotent in
general (see the counterexample), but the per-operation properties hold:
re-running a successful write on its own output changes nothing, deleting
an absent target is a no-op success, and moving an absent (already moved)
source fails — with `shutil.Error` when the destination is an existing
directory whose basename slot is occupied, otherwise `FileNotFoundError`
— leaving the filesystem, the destination included, unchanged, provided
the destination parent directories already exist. -/
theorem c7_per_operation (root : AbsPath) :
    (∀ (fs fs1 : FS) (target : AbsPath) (content encoding : String),
      write_file fs target content encoding = .ok fs1 →
      write_file fs1 target content encoding = .ok fs1) ∧
    (∀ (fs : FS) (p : String) (log : List String),
      pyStartswith (pathStr (resolveUnder root p)) (pathStr root) = true →
      fsLookup fs (resolveUnder root p) = none →
      applyChange true root (Json.obj [("action", Json.str "delete"),
        ("path", Json.str p)]) (log, fs) = .ok (log ++ ["DELETE " ++ p], fs)) ∧
    (∀ (fs : FS) (pp f t : String) (log : List String),
      pyStartswith (pathStr (resolveUnder root pp)) (pathStr root) = true →
      pyStartswith (pathStr (resolveUnder root f)) (pathStr root) = true →
      pyStartswith (pathStr (resolveUnder root t)) (pathStr root) = true →
      mkdirParents fs (resolveUnder root t).dropLast = .ok fs →
      fsLookup fs (resolveUnder root f) = none →
      applyChange true root (Json.obj [("action", Json.str "move"),
        ("path", Json.str pp), ("from", Json.str f), ("to", Json.str t)])
        (log, fs)
        = .error (ApplyErr.runtime
            (moveAbsentMsg fs (resolveUnder root f) (resolveUnder root t)) fs)) :=
  ⟨fun fs fs1 target content encoding h =>
      write_file_idem fs fs1 target content encoding h,
   fun fs p log h1 h2 => applyChange_delete_absent root fs p log h1 h2,
   fun fs pp f t log h1 h2 h3 h4 h5 =>
      applyChange_move_absent root fs pp f t log h1 h2 h3 h4 h5⟩

/-- C7 witness: the three per-operation properties at concrete inputs in
root `/r`: rewriting `x` over its own output, deleting the absent `nope`,
moving the absent `a` to the non-directory `b` (`FileNotFoundError`), and
moving the absent `a` into directory `d` whose slot `d/a` is occupied
(`shutil.Error`). -/
theorem c7_witness :
    write_file [(["r"], Node.dir), (["r", "x"], Node.file (FileContent.text "v"))]
      ["r", "x"] "v" "utf-8"
      = .ok [(["r"], Node.dir), (["r", "x"], Node.file (FileContent.text "v"))] ∧
    applyChange true ["r"] (Json.obj [("action", Json.str "delete"),
      ("path", Json.str "nope")]) ([], rootRFS)
      = .ok (["DELETE nope"], rootRFS) ∧
    applyChange true ["r"] (Json.obj [("action", Json.str "move"),
      ("path", Json.str "a"), ("from", Json.str "a"), ("to", Json.str "b")])
      ([], rootRFS)
      = .error (ApplyErr.runtime "FileNotFoundError: /r/a" rootRFS) ∧
    applyChange true ["r"] (Json.obj [("action", Json.str "move"),
      ("path", Json.str "a"), ("from", Json.str "a"), ("to", Json.str "d")])
      ([], occupiedDstFS)
      = .error (ApplyErr.runtime
          "shutil.Error: Destination path already exists: /r/d/a"
          occupiedDstFS) := by
  refine ⟨?_, ?_, ?_, ?_⟩
  · exact (c7_per_operation ["r"]).1
      [(["r"], Node.dir)]
      [(["r"], Node.dir), (["r", "x"], Node.file (FileContent.text "v"))]
      ["r", "x"] "v" "utf-8" rfl
  · exact (c7_per_operation ["r"]).2.1 rootRFS "nope" [] rfl rfl
  · exact (c7_per_operation ["r"]).2.2 rootRFS "a" "a" "b" [] rfl rfl rfl rfl rfl
  · exact (c7_per_operation ["r"]).2.2 occupiedDstFS "a" "a" "d" [] rfl rfl rfl rfl rfl

/-- C9: after a successful apply, every entry of the `commands` list is
handed to the shell in order with the project root as working directory;
each exit code and combined stdout-newline-stderr output is captured
independently, and a failing command (spawn failure or nonzero exit) does
not prevent execution of subsequent commands. -/
theorem c9_commands_best_effort (spec : Json) (root : AbsPath) (fs : FS)
    (exec : String → Except String (Int × String × String))
    (log : List String) (fs1 : FS)
    (h : apply_patch_spec true root fs spec = .ok (log, fs1)) :
    (api_run_patch true exec root fs spec).executed =
      (commandsList spec).map (fun cc => (cc, root)) ∧
    (api_run_patch true exec root fs spec).cmdResults =
      some ((commandsList spec).map (fun cmd =>
        match exec cmd with
        | .ok (rc, so, se) => CmdOut.mk cmd rc (so ++ "\n" ++ se)
        | .error e => CmdOut.mk cmd 1 ("Error: " ++ e))) := by
  have hrun : api_run_patch true exec root fs spec =
      ⟨true, "patch_applied", some log,
       some (runCommands exec root (commandsList spec)).1, none, fs1,
       (runCommands exec root (commandsList spec)).2⟩ := by
    unfold api_run_patch
    rw [if_pos rfl, h]
  rw [hrun]
  exact ⟨rfl, rfl⟩

/-- C9 witness: with a shell oracle that fails to spawn the first command
and gives the second a nonzero exit status, both commands are still
executed in order in the project root and both results are captured. -/
theorem c9_witness :
    (api_run_patch true execFlaky ["proj"] projFS cmdsDoc).executed =
      [("gradle build", ["proj"]), ("echo hi", ["proj"])] ∧
    (api_run_patch true execFlaky ["proj"] projFS cmdsDoc).cmdResults =
      some [⟨"gradle build", 1, "Error: No such file or directory"⟩,
            ⟨"echo hi", 1, "out\nerr"⟩] := by
  have h := c9_commands_best_effort cmdsDoc ["proj"] projFS execFlaky [] projFS rfl
  exact ⟨by rw [h.1]; rfl, by rw [h.2]; rfl⟩

/-- C10: every change object must carry a `path` key to pass validation
regardless of its action — in particular a move with valid `from` and
`to` but no `path` is rejected with a required-property error at the
change, and the apply entry point then raises the validation error. -/
theorem c10_path_required_for_all_actions (fields : List (String × Json))
    (changes : List Json) (i : Nat) (cf : List (String × Json))
    (h1 : jLookup fields "changes" = some (Json.arr changes))
    (h2 : (i, Json.obj cf) ∈ changes.enum)
    (h3 : jLookup cf "path" = none) :
    (∃ e ∈ sortErrs (validateTop (Json.obj fields)),
      e.path = [PathElem.s "changes", PathElem.i i] ∧
      e.message = quoteKey "path" ++ " is a required property") ∧
    (∀ (ac : Bool) (root : AbsPath) (fs : FS),
      apply_patch_spec ac root fs (Json.obj fields) =
        .error (ApplyErr.validation
          (renderErrors (sortErrs (validateTop (Json.obj fields)))))) := by
  have hmem : (⟨[PathElem.s "changes", PathElem.i i],
      quoteKey "path" ++ " is a required property"⟩ : VErr)
      ∈ sortErrs (validateTop (Json.obj fields)) :=
    (mem_sortErrs _ _).mpr
      (validateTop_changes_mem fields _ _ h1
        (validateChanges_item_mem changes i _ _ h2
          (validateChangeItem_path_required i cf h3)))
  exact ⟨⟨_, hmem, rfl, rfl⟩,
    fun ac root fs =>
      apply_patch_spec_of_errors ac root fs _ (isEmpty_false_of_mem hmem)⟩

/-- C10 witness: the move change with `from` and `to` but no `path` is
rejected with the required-property error and the apply raises it. -/
theorem c10_witness :
    (∃ e ∈ sortErrs (validateTop moveNoPathDoc),
      e.path = [PathElem.s "changes", PathElem.i 0] ∧
      e.message = quoteKey "path" ++ " is a required property") ∧
    apply_patch_spec true ["r"] rootRFS moveNoPathDoc =
      .error (ApplyErr.validation
        (renderErrors (sortErrs (validateTop moveNoPathDoc)))) := by
  have h := c10_path_required_for_all_actions
    [("version", Json.str "1"), ("intent", Json.str "apply_fixes"),
     ("changes", Json.arr [Json.obj [("action", Json.str "move"),
       ("from", Json.str "a"), ("to", Json.str "b")]])]
    [Json.obj [("action", Json.str "move"),
      ("from", Json.str "a"), ("to", Json.str "b")]]
    0
    [("action", Json.str "move"), ("from", Json.str "a"), ("to", Json.str "b")]
    rfl (List.mem_singleton.mpr rfl) rfl
  exact ⟨h.1, h.2 true ["r"] rootRFS⟩

end GradleGui
